import Mathlib

/-!
Shallow embedding of the `multidict` Rust crate (src/lib.rs): an ordered
multi-valued associative container `MultiDict` storing a growable sequence of
`MultiElement` key/value pairs, with linear-scan accessors and mutators.

Rust `Vec<MultiElement>` is embedded as `List MultiElement`; `&mut self`
methods become functions returning the new state; `Result<T, &str>` becomes
`Except String T`.  `Vec` capacity (pre-allocation) is not part of the
observable state of the container, so it is dropped by the embedding.
-/

/-- Embeds `struct MultiElement { key: String, value: String }`. -/
structure MultiElement where
  key : String
  value : String
  deriving DecidableEq, Repr

namespace MultiDictSpec

/-- Embeds `struct MultiDict { elements: Vec<MultiElement> }`. -/
structure MultiDict where
  elements : List MultiElement
  deriving DecidableEq, Repr

namespace MultiDict

/-- Embeds `MultiDict::new`: `MultiDict { elements: Vec::new() }`. -/
def new : MultiDict := ⟨[]⟩

/-- Embeds `MultiDict::new_capacity`: `Vec::with_capacity(*capacity)` produces
an empty vector whose capacity is a mere allocation hint, invisible to every
observer of the container, so the embedding yields the empty sequence. -/
def new_capacity (_capacity : Nat) : MultiDict := ⟨[]⟩

/-- Embeds `MultiDict::len`: `self.elements.len()`. -/
def len (m : MultiDict) : Nat := m.elements.length

/-- Embeds `MultiDict::is_empty`: `self.elements.is_empty()`. -/
def is_empty (m : MultiDict) : Bool := m.elements.isEmpty

/-- Embeds `MultiDict::add`: `self.elements.push(new_item)`. -/
def add (m : MultiDict) (new_item : MultiElement) : MultiDict :=
  ⟨m.elements ++ [new_item]⟩

/-- The `for item in &self.elements { if item.key.eq(key) { return Ok(item) } }`
loop of `MultiDict::get`. -/
def getLoop : List MultiElement → String → Except String MultiElement
  | [], _ => .error "No matching key found"
  | item :: rest, key =>
    if item.key == key then .ok item else getLoop rest key

/-- Embeds `MultiDict::get`. -/
def get (m : MultiDict) (key : String) : Except String MultiElement :=
  getLoop m.elements key

/-- The indexed loop of `MultiDict::popone`: scans for the first element whose
key matches and removes it (`self.elements.remove(idx)`), returning the removed
element and the remaining list; on no match the list is unchanged. -/
def poponeLoop : List MultiElement → String →
    Except String MultiElement × List MultiElement
  | [], _ => (.error "No matching key found", [])
  | item :: rest, key =>
    if item.key == key then (.ok item, rest)
    else
      let r := poponeLoop rest key
      (r.1, item :: r.2)

/-- Embeds `MultiDict::popone`, with the post-state of `&mut self` returned
explicitly alongside the `Result`. -/
def popone (m : MultiDict) (key : String) :
    Except String MultiElement × MultiDict :=
  let r := poponeLoop m.elements key
  (r.1, ⟨r.2⟩)

/-- Embeds `MultiDict::getall`: the loop builds `results` by `add`-ing every
element whose key matches, then errors iff `results` is empty. -/
def getall (m : MultiDict) (key : String) : Except String MultiDict :=
  let results :=
    m.elements.foldl (fun acc item => if item.key == key then acc.add item else acc) new
  if !results.is_empty then .ok results else .error "No matching key found"

/-- Embeds `MultiDict::contains`: the loop returns `true` on the first
matching key. -/
def contains (m : MultiDict) (key : String) : Bool :=
  m.elements.any (fun item => item.key == key)

/-- Embeds `MultiDict::keys`: the loop pushes every element's key onto a
fresh vector, in order. -/
def keys (m : MultiDict) : List String :=
  m.elements.foldl (fun results item => results ++ [item.key]) []

/-- Embeds `MultiDict::values`: the loop pushes every element's value onto a
fresh vector, in order. -/
def values (m : MultiDict) : List String :=
  m.elements.foldl (fun results item => results ++ [item.value]) []

/-- The first loop of `MultiDict::update`: `ids_for_replace`, the indices
(counting from `i`) of the elements whose key equals `new_item.key`, collected
by the `enumerate` scan before any replacement happens. -/
def idsForReplace (key : String) : List MultiElement → Nat → List Nat
  | [], _ => []
  | item :: rest, i =>
    if item.key == key then i :: idsForReplace key rest (i + 1)
    else idsForReplace key rest (i + 1)

/-- Embeds `MultiDict::update`: collect `ids_for_replace` first, then for each
collected index do `self.elements.remove(idx); self.elements.insert(idx,
new_item.clone())`. -/
def update (m : MultiDict) (new_item : MultiElement) : MultiDict :=
  let ids := idsForReplace new_item.key m.elements 0
  ⟨ids.foldl (fun es idx => (es.eraseIdx idx).insertIdx idx new_item) m.elements⟩

/-- Renders one element as `"key":"value"`, as in the closure inside
`fmt::Display for MultiDict`. -/
def renderElement (e : MultiElement) : String :=
  "\"" ++ e.key ++ "\":\"" ++ e.value ++ "\""

/-- Embeds `impl fmt::Display for MultiDict`:
`write!(f, "MultiDict < {} >", ...join(", "))`. -/
def display (m : MultiDict) : String :=
  "MultiDict < " ++ String.intercalate ", " (m.elements.map renderElement) ++ " >"

/-- Harness for "any sequence of `add` calls": perform them left to right. -/
def addAll (m : MultiDict) (es : List MultiElement) : MultiDict :=
  es.foldl MultiDict.add m

end MultiDict

/-! ### Helper lemmas about the loops -/

namespace MultiDict

theorem getLoop_of_none (k : String) :
    ∀ (l : List MultiElement), (∀ e ∈ l, e.key ≠ k) →
      getLoop l k = .error "No matching key found"
  | [], _ => rfl
  | a :: l, h => by
    have ha : ¬ (a.key == k) = true := by
      simpa using h a (List.mem_cons_self a l)
    simp only [getLoop, if_neg ha]
    exact getLoop_of_none k l (fun e he => h e (List.mem_cons_of_mem a he))

theorem getLoop_found (k : String) (e : MultiElement) (post : List MultiElement) :
    ∀ (pre : List MultiElement), (∀ x ∈ pre, x.key ≠ k) → e.key = k →
      getLoop (pre ++ e :: post) k = .ok e
  | [], _, he => by simp [getLoop, he]
  | a :: pre, h, he => by
    have ha : ¬ (a.key == k) = true := by
      simpa using h a (List.mem_cons_self a pre)
    simp only [List.cons_append, getLoop, if_neg ha]
    exact getLoop_found k e post pre (fun x hx => h x (List.mem_cons_of_mem a hx)) he

theorem poponeLoop_of_none (k : String) :
    ∀ (l : List MultiElement), (∀ e ∈ l, e.key ≠ k) →
      poponeLoop l k = (.error "No matching key found", l)
  | [], _ => rfl
  | a :: l, h => by
    have ha : ¬ (a.key == k) = true := by
      simpa using h a (List.mem_cons_self a l)
    simp only [poponeLoop, if_neg ha]
    rw [poponeLoop_of_none k l (fun e he => h e (List.mem_cons_of_mem a he))]

theorem poponeLoop_found (k : String) (e : MultiElement) (post : List MultiElement) :
    ∀ (pre : List MultiElement), (∀ x ∈ pre, x.key ≠ k) → e.key = k →
      poponeLoop (pre ++ e :: post) k = (.ok e, pre ++ post)
  | [], _, he => by simp [poponeLoop, he]
  | a :: pre, h, he => by
    have ha : ¬ (a.key == k) = true := by
      simpa using h a (List.mem_cons_self a pre)
    simp only [List.cons_append, poponeLoop, if_neg ha, List.append_eq_has_append]
    rw [poponeLoop_found k e post pre (fun x hx => h x (List.mem_cons_of_mem a hx)) he]

theorem getall_foldl_eq_filter (k : String) :
    ∀ (l : List MultiElement) (acc : MultiDict),
      l.foldl (fun acc item => if item.key == k then acc.add item else acc) acc
        = ⟨acc.elements ++ l.filter (fun e => e.key == k)⟩
  | [], acc => by simp
  | a :: l, acc => by
    simp only [List.foldl_cons, List.filter_cons]
    by_cases hk : (a.key == k) = true
    · rw [if_pos hk, if_pos hk, getall_foldl_eq_filter k l (acc.add a)]
      simp [add]
    · rw [if_neg hk, if_neg hk, getall_foldl_eq_filter k l acc]

theorem getall_spec (m : MultiDict) (k : String) :
    m.getall k
      = if (m.elements.filter (fun e => e.key == k)).isEmpty
          then .error "No matching key found"
          else .ok ⟨m.elements.filter (fun e => e.key == k)⟩ := by
  unfold getall
  rw [getall_foldl_eq_filter k m.elements new]
  show (if !is_empty _ then _ else _) = _
  simp only [is_empty, new]
  cases h : (m.elements.filter (fun e => e.key == k)).isEmpty <;>
    simp [h, List.isEmpty_nil]

theorem foldl_push_eq_append (f : MultiElement → String) :
    ∀ (l : List MultiElement) (acc : List String),
      l.foldl (fun results item => results ++ [f item]) acc = acc ++ l.map f
  | [], acc => by simp
  | a :: l, acc => by
    simp only [List.foldl_cons, List.map_cons]
    rw [foldl_push_eq_append f l (acc ++ [f a])]
    simp

theorem keys_eq_map (m : MultiDict) : m.keys = m.elements.map (fun e => e.key) :=
  by simpa using foldl_push_eq_append (fun e => e.key) m.elements []

theorem values_eq_map (m : MultiDict) : m.values = m.elements.map (fun e => e.value) :=
  by simpa using foldl_push_eq_append (fun e => e.value) m.elements []

theorem insertIdx_eraseIdx_self :
    ∀ (l : List MultiElement) (i : Nat) (x : MultiElement), i < l.length →
      (l.eraseIdx i).insertIdx i x = l.set i x
  | [], i, x, h => absurd h (by simp)
  | a :: l, 0, x, _ => rfl
  | a :: l, i + 1, x, h => by
    show a :: (l.eraseIdx i).insertIdx i x = a :: l.set i x
    rw [insertIdx_eraseIdx_self l i x (Nat.lt_of_succ_lt_succ h)]

theorem idsForReplace_lt (k : String) :
    ∀ (l : List MultiElement) (n i : Nat), i ∈ idsForReplace k l n → i < n + l.length
  | [], n, i, h => by simp [idsForReplace] at h
  | a :: l, n, i, h => by
    by_cases hk : (a.key == k) = true
    · rw [idsForReplace, if_pos hk] at h
      rcases List.mem_cons.mp h with rfl | h2
      · simp
      · have := idsForReplace_lt k l (n + 1) i h2
        simpa [Nat.add_comm, Nat.add_left_comm] using this
    · rw [idsForReplace, if_neg hk] at h
      have := idsForReplace_lt k l (n + 1) i h
      simpa [Nat.add_comm, Nat.add_left_comm] using this

theorem foldl_eraseInsert_eq_foldl_set (x : MultiElement) :
    ∀ (ids : List Nat) (es : List MultiElement), (∀ i ∈ ids, i < es.length) →
      ids.foldl (fun es idx => (es.eraseIdx idx).insertIdx idx x) es
        = ids.foldl (fun es idx => es.set idx x) es
  | [], _, _ => rfl
  | i :: ids, es, h => by
    simp only [List.foldl_cons]
    rw [insertIdx_eraseIdx_self es i x (h i (List.mem_cons_self i ids))]
    exact foldl_eraseInsert_eq_foldl_set x ids (es.set i x) (fun j hj => by
      rw [List.length_set]
      exact h j (List.mem_cons_of_mem i hj))

theorem set_append_cons (x a : MultiElement) :
    ∀ (pre post : List MultiElement),
      (pre ++ a :: post).set pre.length x = pre ++ x :: post
  | [], _ => rfl
  | b :: pre, post => by
    show b :: (pre ++ a :: post).set pre.length x = b :: (pre ++ x :: post)
    rw [set_append_cons x a pre post]

theorem foldl_set_idsForReplace (k : String) (x : MultiElement) :
    ∀ (l pre : List MultiElement),
      (idsForReplace k l pre.length).foldl (fun es i => es.set i x) (pre ++ l)
        = pre ++ l.map (fun e => if e.key == k then x else e)
  | [], pre => by simp [idsForReplace]
  | a :: l, pre => by
    by_cases hk : (a.key == k) = true
    · rw [idsForReplace, if_pos hk, List.foldl_cons, set_append_cons x a pre l]
      have ih := foldl_set_idsForReplace k x l (pre ++ [x])
      rw [List.length_append, List.length_singleton, List.append_assoc,
        List.singleton_append] at ih
      rw [ih, List.map_cons, if_pos hk]
      simp
    · rw [idsForReplace, if_neg hk]
      have ih := foldl_set_idsForReplace k x l (pre ++ [a])
      rw [List.length_append, List.length_singleton, List.append_assoc,
        List.singleton_append] at ih
      rw [ih, List.map_cons, if_neg hk]
      simp

theorem update_elements_eq_map (m : MultiDict) (x : MultiElement) :
    (m.update x).elements
      = m.elements.map (fun e => if e.key == x.key then x else e) := by
  show (idsForReplace x.key m.elements 0).foldl
      (fun es idx => (es.eraseIdx idx).insertIdx idx x) m.elements = _
  rw [foldl_eraseInsert_eq_foldl_set x _ m.elements (fun i hi => by
    simpa using idsForReplace_lt x.key m.elements 0 i hi)]
  simpa using foldl_set_idsForReplace x.key x m.elements []

theorem addAll_elements :
    ∀ (es : List MultiElement) (m : MultiDict),
      (m.addAll es).elements = m.elements ++ es
  | [], m => by simp [addAll]
  | a :: es, m => by
    show ((m.add a).addAll es).elements = _
    rw [addAll_elements es (m.add a)]
    simp [add]

theorem eq_of_elements_eq {m₁ m₂ : MultiDict} (h : m₁.elements = m₂.elements) :
    m₁ = m₂ := by
  cases m₁
  cases m₂
  cases h
  rfl

end MultiDict

/-! ### The claims -/

/-- Claim C1: `update(k, v)` replaces each entry whose key equals `k` (the
matching positions being collected once, before any replacement) with a new
entry `(k, v)` at that entry's existing position, leaves every non-matching
entry untouched, and when no entry matches it leaves the map unchanged;
`update` is total, so no error is ever reported. -/
theorem claim_C1_update (m : MultiDict) (k v : String) :
    ((m.update ⟨k, v⟩).elements
        = m.elements.map (fun e => if e.key == k then ⟨k, v⟩ else e))
      ∧ ((∀ e ∈ m.elements, e.key ≠ k) → m.update ⟨k, v⟩ = m) := by
  refine ⟨MultiDict.update_elements_eq_map m ⟨k, v⟩, fun h => ?_⟩
  apply MultiDict.eq_of_elements_eq
  rw [MultiDict.update_elements_eq_map m ⟨k, v⟩]
  have h2 : ∀ e ∈ m.elements,
      (if e.key == k then (⟨k, v⟩ : MultiElement) else e) = e := by
    intro e he
    rw [if_neg (by simpa using h e he)]
  rw [List.map_congr_left h2]
  simp

/-- Witness for C1 at a concrete map with no matching key. -/
theorem claim_C1_witness :
    ((MultiDict.update ⟨[⟨"a", "1"⟩]⟩ ⟨"b", "2"⟩).elements
        = [⟨"a", "1"⟩].map (fun e => if e.key == "b" then ⟨"b", "2"⟩ else e))
      ∧ MultiDict.update ⟨[⟨"a", "1"⟩]⟩ ⟨"b", "2"⟩ = ⟨[⟨"a", "1"⟩]⟩ :=
  ⟨(claim_C1_update ⟨[⟨"a", "1"⟩]⟩ "b" "2").1,
    (claim_C1_update ⟨[⟨"a", "1"⟩]⟩ "b" "2").2 (by decide)⟩

/-- Claim C2: `getall(k)` returns a new collection holding exactly the entries
with key `k`, in source order (the filter of the entry list), with length equal
to their count; it fails with the key-not-found error exactly when that count
is zero.  (`getall` takes `&self` and is embedded as a pure function of `m`,
so it cannot mutate the source map.) -/
theorem claim_C2_getall (m : MultiDict) (k : String) :
    (∀ r, m.getall k = .ok r →
        r.elements = m.elements.filter (fun e => e.key == k)
          ∧ r.len = m.elements.countP (fun e => e.key == k))
      ∧ (m.getall k = .error "No matching key found"
          ↔ m.elements.countP (fun e => e.key == k) = 0) := by
  rw [MultiDict.getall_spec]
  by_cases h : (m.elements.filter (fun e => e.key == k)).isEmpty = true
  · rw [if_pos h]
    have hc : m.elements.countP (fun e => e.key == k) = 0 := by
      rw [List.countP_eq_length_filter, List.length_eq_zero]
      exact List.isEmpty_iff.mp h
    refine ⟨fun r hr => ?_, by simp [hc]⟩
    cases hr
  · rw [if_neg h]
    constructor
    · intro r hr
      injection hr with hr2
      subst hr2
      exact ⟨rfl, by simp [MultiDict.len, List.countP_eq_length_filter]⟩
    · constructor
      · intro habs
        cases habs
      · intro hc
        exact absurd (List.isEmpty_iff.mpr
          (List.length_eq_zero.mp (by rw [← List.countP_eq_length_filter]; exact hc))) h

/-- Witness for C2 at a concrete map with two matches. -/
theorem claim_C2_witness :
    ((⟨[⟨"a", "1"⟩, ⟨"a", "3"⟩]⟩ : MultiDict).elements
        = (⟨[⟨"a", "1"⟩, ⟨"b", "2"⟩, ⟨"a", "3"⟩]⟩ : MultiDict).elements.filter
            (fun e => e.key == "a"))
      ∧ (⟨[⟨"a", "1"⟩, ⟨"a", "3"⟩]⟩ : MultiDict).len
        = (⟨[⟨"a", "1"⟩, ⟨"b", "2"⟩, ⟨"a", "3"⟩]⟩ : MultiDict).elements.countP
            (fun e => e.key == "a") :=
  (claim_C2_getall ⟨[⟨"a", "1"⟩, ⟨"b", "2"⟩, ⟨"a", "3"⟩]⟩ "a").1
    ⟨[⟨"a", "1"⟩, ⟨"a", "3"⟩]⟩ rfl

/-- Claim C3: `popone(k)` removes and returns the first entry (in insertion
order) whose key equals `k`, the remaining entries keeping their relative
order and content; on no match it fails with the key-not-found error and the
post-state is exactly the original map. -/
theorem claim_C3_popone (m : MultiDict) (k : String) :
    ((∀ e ∈ m.elements, e.key ≠ k) →
        m.popone k = (.error "No matching key found", m))
      ∧ (∀ pre e post, m.elements = pre ++ e :: post →
          (∀ x ∈ pre, x.key ≠ k) → e.key = k →
          m.popone k = (.ok e, ⟨pre ++ post⟩)) := by
  constructor
  · intro h
    show ((MultiDict.poponeLoop m.elements k).1,
        (⟨(MultiDict.poponeLoop m.elements k).2⟩ : MultiDict)) = _
    rw [MultiDict.poponeLoop_of_none k m.elements h]
  · intro pre e post hsplit hpre hek
    show ((MultiDict.poponeLoop m.elements k).1,
        (⟨(MultiDict.poponeLoop m.elements k).2⟩ : MultiDict)) = _
    rw [hsplit, MultiDict.poponeLoop_found k e post pre hpre hek]

/-- Witness for C3 at a concrete map where the second of two entries keyed
`"b"` stays behind. -/
theorem claim_C3_witness :
    MultiDict.popone ⟨[⟨"a", "1"⟩, ⟨"b", "2"⟩, ⟨"b", "3"⟩]⟩ "b"
      = (.ok ⟨"b", "2"⟩, ⟨[⟨"a", "1"⟩, ⟨"b", "3"⟩]⟩) :=
  (claim_C3_popone ⟨[⟨"a", "1"⟩, ⟨"b", "2"⟩, ⟨"b", "3"⟩]⟩ "b").2
    [⟨"a", "1"⟩] ⟨"b", "2"⟩ [⟨"b", "3"⟩] rfl (by decide) rfl

/-- Claim C4: `get(k)` returns the first entry (in insertion order) whose key
equals `k` under exact string equality (`String.eq`, case-sensitive), and
fails with the key-not-found error exactly when no entry matches.  (`get`
takes `&self` and is embedded as a pure function of `m`, so it cannot modify
the map.) -/
theorem claim_C4_get (m : MultiDict) (k : String) :
    ((∀ e ∈ m.elements, e.key ≠ k) → m.get k = .error "No matching key found")
      ∧ (∀ pre e post, m.elements = pre ++ e :: post →
          (∀ x ∈ pre, x.key ≠ k) → e.key = k → m.get k = .ok e) := by
  constructor
  · intro h
    exact MultiDict.getLoop_of_none k m.elements h
  · intro pre e post hsplit hpre hek
    show MultiDict.getLoop m.elements k = _
    rw [hsplit]
    exact MultiDict.getLoop_found k e post pre hpre hek

/-- Witness for C4 at a concrete map with two entries keyed `"b"`. -/
theorem claim_C4_witness :
    MultiDict.get ⟨[⟨"a", "1"⟩, ⟨"b", "2"⟩, ⟨"b", "3"⟩]⟩ "b" = .ok ⟨"b", "2"⟩ :=
  (claim_C4_get ⟨[⟨"a", "1"⟩, ⟨"b", "2"⟩, ⟨"b", "3"⟩]⟩ "b").2
    [⟨"a", "1"⟩] ⟨"b", "2"⟩ [⟨"b", "3"⟩] rfl (by decide) rfl

/-- Claim C5: `len` equals the length of `keys` and of `values`, and `keys`
and `values` are the parallel projections of the entry sequence in insertion
order: the i-th key and i-th value come from the i-th entry, duplicates
included. -/
theorem claim_C5_keys_values (m : MultiDict) :
    m.len = m.keys.length ∧ m.len = m.values.length
      ∧ ∀ i : Nat,
          m.keys[i]? = (m.elements[i]?).map (fun e => e.key)
            ∧ m.values[i]? = (m.elements[i]?).map (fun e => e.value) := by
  refine ⟨?_, ?_, fun i => ⟨?_, ?_⟩⟩ <;>
    simp [MultiDict.len, MultiDict.keys_eq_map, MultiDict.values_eq_map]

/-- Claim C6: `add(k, v)` always succeeds, appends the new entry at the end,
increases `len` by exactly one and leaves all prior entries in place; from the
empty map, any sequence of `add` calls yields `keys` equal to the added keys
in call order. -/
theorem claim_C6_add (m : MultiDict) (e : MultiElement) (es : List MultiElement) :
    (m.add e).len = m.len + 1
      ∧ (m.add e).elements = m.elements ++ [e]
      ∧ (MultiDict.new.addAll es).keys = es.map (fun x => x.key) := by
  refine ⟨by simp [MultiDict.add, MultiDict.len], rfl, ?_⟩
  rw [MultiDict.keys_eq_map, MultiDict.addAll_elements es MultiDict.new]
  rfl

/-- Claim C7: on a map with no entry keyed `k`, `add(k, v)` followed by
`popone(k)` returns the removed entry `(k, v)` and restores the map to its
pre-add state. -/
theorem claim_C7_add_popone (m : MultiDict) (k v : String)
    (h : ∀ e ∈ m.elements, e.key ≠ k) :
    (m.add ⟨k, v⟩).popone k = (.ok ⟨k, v⟩, m) := by
  have h2 := MultiDict.poponeLoop_found k ⟨k, v⟩ [] m.elements h rfl
  rw [List.append_nil] at h2
  show ((MultiDict.poponeLoop (m.elements ++ [(⟨k, v⟩ : MultiElement)]) k).1,
      (⟨(MultiDict.poponeLoop (m.elements ++ [(⟨k, v⟩ : MultiElement)]) k).2⟩
        : MultiDict)) = _
  rw [h2]

/-- Witness for C7 at a concrete one-entry map. -/
theorem claim_C7_witness :
    (MultiDict.add ⟨[⟨"a", "1"⟩]⟩ ⟨"b", "2"⟩).popone "b"
      = (.ok ⟨"b", "2"⟩, ⟨[⟨"a", "1"⟩]⟩) :=
  claim_C7_add_popone ⟨[⟨"a", "1"⟩]⟩ "b" "2" (by decide)

/-- Claim C8: `new_capacity n` builds a map with zero entries that is equal,
as a state, to the one built by `new` — the capacity of the backing `Vec` is a
pure allocation hint, not observable through any operation — so every sequence
of subsequent operations yields identical results on both. -/
theorem claim_C8_new_capacity (n : Nat) :
    MultiDict.new_capacity n = MultiDict.new
      ∧ (MultiDict.new_capacity n).len = 0 :=
  ⟨rfl, rfl⟩

/-- Claim C9: `Display` renders the entries in insertion order as a bracketed,
comma-separated list of quoted `"key":"value"` pairs; on the spec's example
entries it produces `MultiDict < "k1":"v1", "k1":"v2" >` (the crate's name for
the container standing where the spec writes its generic name `Container`). -/
theorem claim_C9_display (m : MultiDict) :
    m.display
      = "MultiDict < "
          ++ String.intercalate ", "
            (m.elements.map (fun e => "\"" ++ e.key ++ "\":\"" ++ e.value ++ "\""))
          ++ " >"
      ∧ MultiDict.display ⟨[⟨"k1", "v1"⟩, ⟨"k1", "v2"⟩]⟩
        = "MultiDict < \"k1\":\"v1\", \"k1\":\"v2\" >" :=
  ⟨rfl, rfl⟩

/-- Claim C10: `update(k, v)` never changes `len` and never changes `keys`,
whether or not any entry matches `k` (a matching entry is replaced by one with
the same key). -/
theorem claim_C10_update_frame (m : MultiDict) (k v : String) :
    (m.update ⟨k, v⟩).len = m.len ∧ (m.update ⟨k, v⟩).keys = m.keys := by
  have h := MultiDict.update_elements_eq_map m ⟨k, v⟩
  constructor
  · simp [MultiDict.len, h]
  · rw [MultiDict.keys_eq_map, MultiDict.keys_eq_map, h, List.map_map]
    apply List.map_congr_left
    intro e he
    simp only [Function.comp]
    by_cases hk : (e.key == k) = true
    · rw [if_pos hk]
      exact (eq_of_beq hk).symm
    · rw [if_neg hk]

end MultiDictSpec
